import Mathlib

/-!
Verification development for the GitHub connector of this repository
(`connector/github`).  The Go source is shallowly embedded: pure helpers are
translated directly; HTTP calls are modelled by passing their observable
outcomes (status codes, decoded pages, membership answers) as explicit
arguments, so every function below is executable and its control flow mirrors
the Go control flow statement by statement.
-/

/-- An org/team filter entry from the connector configuration (`Org` in the
source): an org name and an optional team allow-list (empty list = no
restriction). -/
structure Org where
  name : String
  teams : List String
deriving Repr, DecidableEq

/-- The connector configuration fields used by the embedded operations
(`githubConnector` in the source).  Credentials and URLs that only feed the
HTTP layer are omitted; `hostName = ""` means the public endpoint. -/
structure GithubConfig where
  hostName : String
  org : String
  orgs : List Org
  teamNameField : String
  loadAllGroups : Bool
  useLoginAsID : Bool
  preferredEmailDomain : String
  noreplyPrivateEmail : Bool
deriving Repr, DecidableEq

/-- Splitting a character list at every occurrence of a separator character;
`splitOnChar c s` mirrors Go `strings.Split(s, string(c))` (empty input gives
one empty field, adjacent separators give empty fields). -/
def splitOnChar (c : Char) : List Char → List (List Char)
  | [] => [[]]
  | x :: xs =>
    if x = c then [] :: splitOnChar c xs
    else
      match splitOnChar c xs with
      | [] => [[x]]
      | l :: ls => (x :: l) :: ls

/-- Embeds Go `strings.Split(s, ".")` from the source, over the character data of a
string. -/
def splitDots (s : String) : List String :=
  (splitOnChar '.' s.data).map String.mk

/-- Cut a character list at the first occurrence of `c`: Go
`strings.Cut(s, string(c))`, returning the parts before and after, or `none`
when `c` does not occur. -/
def cutAt (c : Char) : List Char → Option (List Char × List Char)
  | [] => none
  | x :: xs =>
    if x = c then some ([], xs)
    else (cutAt c xs).map (fun p => (x :: p.1, p.2))

/-- The domain part of an email address: Go
`_, domainPart, ok := strings.Cut(email.Email, "@")` — everything after the
first `@`, or `none` when there is no `@`. -/
def cutDomain (s : String) : Option String :=
  (cutAt '@' s.data).map (fun p => String.mk p.2)

/-- The label loop of `isPreferredEmailDomain`: with the two label lists of
equal length, every configured label must equal the candidate label or be the
wildcard `*`. -/
def labelsMatch : List String → List String → Bool
  | [], [] => true
  | v :: vs, d :: ds => (d = v || v = "*") && labelsMatch vs ds
  | _, _ => false

/-- Embeds `isPreferredEmailDomain` from the source: the candidate domain matches the
configured preferred-email-domain glob.  Literal equality first; otherwise
split both on `.`, require equal label counts, then the label-wise check. -/
def isPreferredEmailDomain (preferredEmailDomain domain : String) : Bool :=
  if domain = preferredEmailDomain then true
  else
    let preferredDomainParts := splitDots preferredEmailDomain
    let domainParts := splitDots domain
    if preferredDomainParts.length ≠ domainParts.length then false
    else labelsMatch preferredDomainParts domainParts

/-- Embeds `getPagination` from the source, with the `Link` header abstracted to the
first `<url>; rel="last"` match and the first `<url>; rel="next"` match (the
two regex lookups in the source; `none` = relation absent).  Returns the next
page URL or `""` for "no more pages": if no "last" relation is present the
result is `""`; if the "last" URL equals the URL just fetched the result is
`""` even when a "next" relation is present; otherwise the "next" URL when
present, else `""`. -/
def getPagination (apiURL : String) (linkLast linkNext : Option String) : String :=
  match linkLast with
  | none => ""
  | some lastPageURL =>
    if apiURL = lastPageURL then ""
    else
      match linkNext with
      | some nextURL => nextURL
      | none => ""

/-- The observable part of an HTTP response to one `get` call: status code,
status line, raw body, whether the JSON decode of the body into the caller's
shape succeeds, and the two pagination relations of the `Link` header. -/
structure HTTPResponse where
  statusCode : Nat
  status : String
  body : String
  decodeOk : Bool
  linkLast : Option String
  linkNext : Option String
deriving Repr, DecidableEq

/-- Embeds `get` from the source, given the response the HTTP client produced for
`apiURL`: a status other than 200 (`http.StatusOK`) is an error carrying the
status line and raw body; a failed JSON decode is an error; otherwise the
pagination URL is returned. -/
def get (apiURL : String) (resp : HTTPResponse) : Except String String :=
  if resp.statusCode ≠ 200 then .error (resp.status ++ ": " ++ resp.body)
  else if resp.decodeOk = false then .error "failed to decode response"
  else .ok (getPagination apiURL resp.linkLast resp.linkNext)

/-- One entry of the `/user/emails` response (`userEmail` struct in the
source). -/
structure UserEmail where
  email : String
  verified : Bool
  primary : Bool
  visibility : String
deriving Repr, DecidableEq

/-- The per-email enterprise adjustment at the top of the `userEmail` loop:
`if c.hostName != "" { email.Verified = true }` — on an enterprise host every
email is treated as verified. -/
def adjustVerified (c : GithubConfig) (e : UserEmail) : UserEmail :=
  if c.hostName ≠ "" then { e with verified := true } else e

/-- The inner loop of the `userEmail` method over the emails of one page,
carrying the `primaryEmail` / `preferredEmails` accumulators.  On an
enterprise host every email is first marked verified; a verified primary email
overwrites the fallback; with a preferred-domain filter set, an email without
an `@` is a hard error and a verified email with a matching domain is appended
to the preferred list. -/
def processEmails (c : GithubConfig) :
    List UserEmail → UserEmail → List UserEmail →
    Except String (UserEmail × List UserEmail)
  | [], primaryEmail, preferredEmails => .ok (primaryEmail, preferredEmails)
  | e0 :: rest, primaryEmail, preferredEmails =>
    let email := adjustVerified c e0
    let primaryEmail :=
      if email.verified && email.primary then email else primaryEmail
    if c.preferredEmailDomain ≠ "" then
      match cutDomain email.email with
      | none => .error "github: invalid format email is detected"
      | some domainPart =>
        let preferredEmails :=
          if email.verified && isPreferredEmailDomain c.preferredEmailDomain domainPart
          then preferredEmails ++ [email] else preferredEmails
        processEmails c rest primaryEmail preferredEmails
    else processEmails c rest primaryEmail preferredEmails

/-- The page loop of the `userEmail` method: the successive decoded pages of
the `/user/emails` crawl (pagination handled by `get`/`getPagination`; the
pages are the bodies it delivered, in order), threading the accumulators. -/
def userEmailPages (c : GithubConfig) :
    List (List UserEmail) → UserEmail → List UserEmail →
    Except String (UserEmail × List UserEmail)
  | [], primaryEmail, preferredEmails => .ok (primaryEmail, preferredEmails)
  | page :: rest, primaryEmail, preferredEmails =>
    match processEmails c page primaryEmail preferredEmails with
    | .error e => .error e
    | .ok (primaryEmail, preferredEmails) =>
      userEmailPages c rest primaryEmail preferredEmails

/-- The zero value of `userEmail` in Go: the initial `primaryEmail`
accumulator. -/
def emptyUserEmail : UserEmail := ⟨"", false, false, ""⟩

/-- The `userEmail` method from the source, over the decoded pages of the
private-emails crawl: first preferred-domain match if any, else the tracked
verified-primary fallback when its address is non-empty, else the
"no usable email" error. -/
def userEmail (c : GithubConfig) (pages : List (List UserEmail)) :
    Except String String :=
  match userEmailPages c pages emptyUserEmail [] with
  | .error e => .error e
  | .ok (primaryEmail, preferredEmails) =>
    match preferredEmails with
    | pe :: _ => .ok pe.email
    | [] =>
      if primaryEmail.email ≠ "" then .ok primaryEmail.email
      else .error "github: user has no verified, primary email or preferred-domain email"

/-- The `/user` profile response (`user` struct in the source). -/
structure User where
  name : String
  login : String
  id : Nat
  email : String
deriving Repr, DecidableEq

/-- The synthesized non-disclosing address
`fmt.Sprintf("%d+%s@users.noreply.github.com", u.ID, u.Login)`. -/
def noreplyEmail (u : User) : String :=
  toString u.id ++ "+" ++ u.login ++ "@users.noreply.github.com"

/-- The email-resolution tail of the `user` method, after the `/user` profile
fetch succeeded with `u0`: `pages` are the decoded pages the private-emails
crawl would deliver.  The returned flag records whether that crawl was
performed (the only other outbound call the method can make).  Mirrors the
source: with `noreplyPrivateEmail` set and the host `""` or `"github.com"`,
the synthesized address is returned at once; otherwise the crawl runs exactly
when the public email is empty or a preferred-domain filter is set. -/
def user (c : GithubConfig) (u0 : User) (pages : List (List UserEmail)) :
    Except String (User × Bool) :=
  if c.noreplyPrivateEmail && (c.hostName = "" || c.hostName = "github.com") then
    .ok ({ u0 with email := noreplyEmail u0 }, false)
  else if u0.email = "" || c.preferredEmailDomain ≠ "" then
    match userEmail c pages with
    | .error e => .error e
    | .ok e => .ok ({ u0 with email := e }, true)
  else .ok (u0, false)

/-- The emails that feed the `primaryEmail` fallback of the crawl: after the
enterprise adjustment, those both verified and primary, in encounter order. -/
def vpList (c : GithubConfig) (es : List UserEmail) : List UserEmail :=
  (es.map (adjustVerified c)).filter (fun e => e.verified && e.primary)

/-- The emails collected into `preferredEmails` by the crawl: with a
preferred-domain filter set, the verified emails (after the enterprise
adjustment) whose domain matches, in encounter order; empty without a
filter. -/
def prefList (c : GithubConfig) (es : List UserEmail) : List UserEmail :=
  if c.preferredEmailDomain = "" then [] else
  (es.map (adjustVerified c)).filter
    (fun e => e.verified &&
      isPreferredEmailDomain c.preferredEmailDomain ((cutDomain e.email).getD ""))

/-- One entry of the `/user/teams` response (`team` struct in the source):
team display name, owning org login, team slug. -/
structure Team where
  name : String
  orgLogin : String
  slug : String
deriving Repr, DecidableEq

/-- Embeds `formatTeamName` from the source: `fmt.Sprintf("%s:%s", org, team)`. -/
def formatTeamName (org team : String) : String :=
  org ++ ":" ++ team

/-- Embeds `teamGroupClaims` from the source: team slug if `teamNameField` is
`"slug"`, slug and name if `"both"`, otherwise (including the default `""`)
the team name. -/
def teamGroupClaims (teamNameField : String) (t : Team) : List String :=
  if teamNameField = "both" then [t.name, t.slug]
  else if teamNameField = "slug" then [t.slug]
  else [t.name]

/-- Embeds `teamsForOrg` from the source, given `userTeams`, the flattened decoded
pages of the `/user/teams` crawl (the same endpoint is crawled on every call;
transport failures of that crawl are threaded separately by the caller): the
claims of the teams whose org login equals `orgName`. -/
def teamsForOrg (teamNameField : String) (userTeams : List Team)
    (orgName : String) : List String :=
  (userTeams.filter (fun t => t.orgLogin = orgName)).flatMap
    (teamGroupClaims teamNameField)

/-- Modelled from the spec: the group-filter helper `groups_pkg.Filter` lives
in `pkg/groups` of this repository, which is not included under `src/`; per
the spec it keeps "only teams whose name appears in the allow-list", i.e. the
members of the fetched claim list that occur in the configured list. -/
def filterGroups (groups required : List String) : List String :=
  groups.filter (fun g => required.contains g)

/-- The observable outcome of one `userInOrg` membership check
(`GET /orgs/{org}/members/{user}`): 204 confirms membership; 302/404 are soft
non-membership (logged, not an error); any other status is a hard error
carrying the status line. -/
inductive MembershipStatus where
  | member : MembershipStatus
  | softNonMember : MembershipStatus
  | hardError : String → MembershipStatus
deriving Repr, DecidableEq

/-- Embeds `userInOrg` from the source, given the status outcome of the membership
check for that org: a hard error aborts, otherwise the boolean membership
answer. -/
def userInOrg (st : MembershipStatus) : Except String Bool :=
  match st with
  | .member => .ok true
  | .softNonMember => .ok false
  | .hardError status =>
    .error ("github: unexpected return status: " ++ status)

/-- The loop of `groupsForOrgs` over the configured orgs, carrying the
`groups` accumulator and the `inOrgNoTeams` flag.  `membership` gives the
outcome of the membership check per org name; `teamsFetch` is the outcome of
the `/user/teams` crawl (`teamsForOrg` re-crawls it for each org).  For a
member org: with no configured teams, all of the user's claims in the org are
appended and the flag is set; otherwise the claims are filtered against the
allow-list and the survivors appended. -/
def groupsForOrgsLoop (c : GithubConfig) (membership : String → MembershipStatus)
    (teamsFetch : Except String (List Team)) :
    List Org → List String → Bool → Except String (List String × Bool)
  | [], groups, inOrgNoTeams => .ok (groups, inOrgNoTeams)
  | org :: rest, groups, inOrgNoTeams =>
    match userInOrg (membership org.name) with
    | .error e => .error e
    | .ok inOrg =>
      if !inOrg then groupsForOrgsLoop c membership teamsFetch rest groups inOrgNoTeams
      else
        match teamsFetch with
        | .error e => .error ("github: get teams: " ++ e)
        | .ok userTeams =>
          let teams := teamsForOrg c.teamNameField userTeams org.name
          if org.teams.isEmpty then
            groupsForOrgsLoop c membership teamsFetch rest
              (groups ++ teams.map (formatTeamName org.name)) true
          else
            let teams := filterGroups teams org.teams
            groupsForOrgsLoop c membership teamsFetch rest
              (groups ++ teams.map (formatTeamName org.name)) inOrgNoTeams

/-- Embeds `groupsForOrgs` from the source: run the loop over `c.orgs` starting from
an empty claim list; succeed with the accumulated groups when some org had no
team restriction or some claim survived, else fail with the not-authorized
error. -/
def groupsForOrgs (c : GithubConfig) (membership : String → MembershipStatus)
    (teamsFetch : Except String (List Team)) (userName : String) :
    Except String (List String) :=
  match groupsForOrgsLoop c membership teamsFetch c.orgs [] false with
  | .error e => .error e
  | .ok (groups, inOrgNoTeams) =>
    if inOrgNoTeams || !groups.isEmpty then .ok groups
    else .error ("github: user \"" ++ userName ++ "\" not in required orgs or teams")

/-- Embeds `groupsRequired` from the source: group resolution is needed when the
org list is non-empty, the legacy org is set, or the caller requested the
groups scope. -/
def groupsRequired (c : GithubConfig) (groupScope : Bool) : Bool :=
  !c.orgs.isEmpty || c.org ≠ "" || groupScope

/-- The connector scopes relevant to the embedded operations
(`connector.Scopes`). -/
structure Scopes where
  groups : Bool
  offlineAccess : Bool
deriving Repr, DecidableEq

/-- The resolved identity (`connector.Identity`); `connectorData` is the
opaque persisted state, `""` meaning absent (length zero). -/
structure Identity where
  userID : String
  username : String
  preferredUsername : String
  email : String
  emailVerified : Bool
  groups : List String
  connectorData : String
deriving Repr, DecidableEq

/-- Embeds `HandleCallback` from the source, after the HTTP outcomes are fixed:
`errType`/`errDesc` are the callback's error query parameters, `exchangeOk`
the outcome of the code-for-token exchange, `userResult` the outcome of the
`user` profile call, `groupsResult` the outcome of `getGroups`, `marshalOk`
the outcome of marshalling the connector data and `connData` its serialized
form.  A callback error or failed exchange aborts; otherwise the identity is
built with the email-verified flag set to true, groups attached only when
required, and the opaque state attached only for offline access. -/
def HandleCallback (c : GithubConfig) (s : Scopes) (errType errDesc : String)
    (exchangeOk : Bool) (userResult : Except String User)
    (groupsResult : Except String (List String)) (marshalOk : Bool)
    (connData : String) : Except String Identity :=
  if errType ≠ "" then
    .error (if errDesc = "" then errType else errType ++ ": " ++ errDesc)
  else if exchangeOk = false then .error "github: failed to get token"
  else
    match userResult with
    | .error e => .error ("github: get user: " ++ e)
    | .ok u =>
      let username := if u.name = "" then u.login else u.name
      let identity : Identity :=
        { userID := if c.useLoginAsID then u.login else toString u.id
          username := username
          preferredUsername := u.login
          email := u.email
          emailVerified := true
          groups := []
          connectorData := "" }
      let withGroups : Except String Identity :=
        if groupsRequired c s.groups then
          match groupsResult with
          | .error e => .error e
          | .ok gs => .ok { identity with groups := gs }
        else .ok identity
      match withGroups with
      | .error e => .error e
      | .ok identity =>
        if s.offlineAccess then
          if marshalOk then .ok { identity with connectorData := connData }
          else .error "marshal connector data"
        else .ok identity

/-- Embeds `Refresh` from the source, after the HTTP outcomes are fixed: fails when
the prior identity carries no opaque state or it does not unmarshal; otherwise
re-fetches the profile (`userResult`) and overwrites username,
preferred-username and email, and the groups exactly when group resolution is
required (`groupsResult`). -/
def Refresh (c : GithubConfig) (s : Scopes) (identity : Identity)
    (unmarshalOk : Bool) (userResult : Except String User)
    (groupsResult : Except String (List String)) : Except String Identity :=
  if identity.connectorData.length = 0 then
    .error "no upstream access token found"
  else if unmarshalOk = false then .error "github: unmarshal access token"
  else
    match userResult with
    | .error e => .error ("github: get user: " ++ e)
    | .ok u =>
      let username := if u.name = "" then u.login else u.name
      let identity :=
        { identity with
            username := username
            preferredUsername := u.login
            email := u.email }
      if groupsRequired c s.groups then
        match groupsResult with
        | .error e => .error e
        | .ok gs => .ok { identity with groups := gs }
      else .ok identity

instance {α β : Type} [DecidableEq α] [DecidableEq β] : DecidableEq (Except α β) :=
  fun a b =>
    match a, b with
    | .ok x, .ok y =>
      if h : x = y then .isTrue (by rw [h])
      else .isFalse (by intro hc; cases hc; exact h rfl)
    | .error x, .error y =>
      if h : x = y then .isTrue (by rw [h])
      else .isFalse (by intro hc; cases hc; exact h rfl)
    | .ok _, .error _ => .isFalse (by intro hc; cases hc)
    | .error _, .ok _ => .isFalse (by intro hc; cases hc)

/-- The group strings one configured org contributes in `groupsForOrgs`
(before the final authorization decision): nothing unless the membership
check confirmed the user; otherwise the user's claims in the org, filtered
against the allow-list when one is configured, each prefixed with the org
name. -/
def orgContribution (c : GithubConfig) (membership : String → MembershipStatus)
    (userTeams : List Team) (org : Org) : List String :=
  if membership org.name = .member then
    let claims := teamsForOrg c.teamNameField userTeams org.name
    let kept := if org.teams.isEmpty then claims else filterGroups claims org.teams
    kept.map (formatTeamName org.name)
  else []

/-- Whether an org counts as "member with no team restriction" (the
`inOrgNoTeams` trigger of the source loop). -/
def memberNoTeams (membership : String → MembershipStatus) (org : Org) : Bool :=
  decide (membership org.name = .member) && org.teams.isEmpty

/-- Invariant of the `groupsForOrgs` loop: when no membership check returns a
hard error and the teams crawl succeeds, the loop appends every org's
contribution in list order and ors the no-restriction-membership flags. -/
lemma groupsForOrgsLoop_spec (c : GithubConfig) (membership : String → MembershipStatus)
    (userTeams : List Team) :
    ∀ (orgs : List Org) (acc : List String) (flag : Bool),
      (∀ org ∈ orgs, ∀ e, membership org.name ≠ .hardError e) →
      groupsForOrgsLoop c membership (.ok userTeams) orgs acc flag =
        .ok (acc ++ orgs.flatMap (orgContribution c membership userTeams),
             flag || orgs.any (memberNoTeams membership)) := by
  intro orgs
  induction orgs with
  | nil => intro acc flag _; simp [groupsForOrgsLoop]
  | cons org rest ih =>
    intro acc flag h
    have hrest : ∀ o ∈ rest, ∀ e, membership o.name ≠ .hardError e := by
      intro o ho e; exact h o (List.mem_cons_of_mem _ ho) e
    have horg : ∀ e, membership org.name ≠ .hardError e := h org (List.mem_cons_self _ _)
    rw [groupsForOrgsLoop]
    cases hm : membership org.name with
    | hardError e => exact absurd hm (horg e)
    | softNonMember =>
      simp only [userInOrg, Bool.not_false, if_pos]
      rw [ih acc flag hrest]
      simp [orgContribution, hm, memberNoTeams]
    | member =>
      simp only [userInOrg, Bool.not_true, Bool.false_eq_true, if_false]
      by_cases ht : org.teams.isEmpty
      · simp only [ht, if_true]
        rw [ih (acc ++ (teamsForOrg c.teamNameField userTeams org.name).map
              (formatTeamName org.name)) true hrest]
        simp [orgContribution, hm, ht, memberNoTeams]
      · simp only [ht, if_false]
        rw [ih (acc ++ (filterGroups (teamsForOrg c.teamNameField userTeams org.name)
              org.teams).map (formatTeamName org.name)) flag hrest]
        simp [orgContribution, hm, ht, memberNoTeams]

/-- Functional description of `groupsForOrgs` when no membership check
returns a hard error: the result is the concatenation of the per-org
contributions, accepted when some org was a no-restriction membership or any
claim survived, and the not-authorized error otherwise. -/
lemma groupsForOrgs_spec (c : GithubConfig) (membership : String → MembershipStatus)
    (userTeams : List Team) (userName : String)
    (h : ∀ org ∈ c.orgs, ∀ e, membership org.name ≠ .hardError e) :
    groupsForOrgs c membership (.ok userTeams) userName =
      (if c.orgs.any (memberNoTeams membership)
          || !(c.orgs.flatMap (orgContribution c membership userTeams)).isEmpty
       then .ok (c.orgs.flatMap (orgContribution c membership userTeams))
       else .error ("github: user \"" ++ userName ++ "\" not in required orgs or teams")) := by
  rw [groupsForOrgs, groupsForOrgsLoop_spec c membership userTeams c.orgs [] false h]
  simp

/-- The filter over an empty allow-list keeps nothing. -/
lemma filterGroups_nil (gs : List String) : filterGroups gs [] = [] := by
  simp [filterGroups]

/-- An org's contribution is non-empty exactly when the user is a confirmed
member and the kept claim list (all claims, or the filtered claims under an
allow-list) is non-empty. -/
lemma orgContribution_ne_nil (c : GithubConfig) (membership : String → MembershipStatus)
    (userTeams : List Team) (org : Org) :
    orgContribution c membership userTeams org ≠ [] ↔
      membership org.name = .member ∧
        (if org.teams.isEmpty then teamsForOrg c.teamNameField userTeams org.name
         else filterGroups (teamsForOrg c.teamNameField userTeams org.name) org.teams) ≠ [] := by
  rw [orgContribution]
  by_cases hm : membership org.name = .member
  · simp [hm, List.map_eq_nil_iff]
  · simp [hm]

/-- C1: in org-list mode (no membership check hard-erroring), `groupsForOrgs`
returns the concatenated per-org contributions: an org whose membership check
confirmed the user and which has no configured team allow-list counts toward
overall authorization (it sets the acceptance flag) but — contrary to the
original claim — contributes one group string `org:claim` for every one of the
user's team claims in that org; an org with an allow-list contributes its
filtered claims.  The run succeeds exactly when the flag is set or some claim
survived. -/
theorem C1_orglist_contribution (c : GithubConfig) (membership : String → MembershipStatus)
    (userTeams : List Team) (userName : String)
    (h : ∀ org ∈ c.orgs, ∀ e, membership org.name ≠ .hardError e) :
    groupsForOrgs c membership (.ok userTeams) userName =
      (if c.orgs.any (memberNoTeams membership)
          || !(c.orgs.flatMap (orgContribution c membership userTeams)).isEmpty
       then .ok (c.orgs.flatMap (orgContribution c membership userTeams))
       else .error ("github: user \"" ++ userName ++ "\" not in required orgs or teams")) :=
  groupsForOrgs_spec c membership userTeams userName h

/-- Concrete run of C1's amended statement, which is also the spec's example
scenario with the user's team list made explicit: orgs A (allow-list `["x"]`),
B (no restriction) and C; the user is a member of A and B, not of C, and their
only team is `x` in A — resolution succeeds with groups exactly `["A:x"]`
(org B contributes nothing only because the user has no teams there). -/
theorem C1_orglist_contribution_witness :
    groupsForOrgs ⟨"", "", [⟨"A", ["x"]⟩, ⟨"B", []⟩, ⟨"C", []⟩], "", false, false, "", false⟩
      (fun o => if o = "C" then .softNonMember else .member)
      (.ok [⟨"x", "A", "xs"⟩]) "jane" = .ok ["A:x"] := by
  rw [C1_orglist_contribution _ _ _ _ (by intro org _ e; split <;> simp)]
  decide

/-- C1 counterexample: for a confirmed-member org with no configured team
allow-list, the original claim says no group string is added for that org; the
code adds `org:claim` for every team of the user in that org.  Here the single
configured org B has no allow-list, the user is a member with team `t`, and
resolution returns the non-empty group list `["B:t"]`. -/
theorem C1_orglist_noRestriction_counterexample :
    groupsForOrgs ⟨"", "", [⟨"B", []⟩], "", false, false, "", false⟩
      (fun _ => .member) (.ok [⟨"t", "B", "ts"⟩]) "jane" = .ok ["B:t"] ∧
    (["B:t"] : List String) ≠ [] := by
  constructor
  · decide
  · decide

/-- C6: in org-list mode, when no membership check returns a hard status,
resolution succeeds exactly when some configured org either has no team
allow-list and the user is a confirmed member, or has an allow-list with a
non-empty intersection with the user's team claims in that org; in every other
case — including a confirmed member whose allow-list intersection is empty —
resolution returns exactly the explicit not-authorized error (so nothing is
authorized even if some groups were partially computed); in particular a user
who is a member of no configured org gets that error. -/
theorem C6_orglist_authorization (c : GithubConfig) (membership : String → MembershipStatus)
    (userTeams : List Team) (userName : String)
    (h : ∀ org ∈ c.orgs, ∀ e, membership org.name ≠ .hardError e) :
    ((∃ gs, groupsForOrgs c membership (.ok userTeams) userName = .ok gs) ↔
      ∃ org ∈ c.orgs, membership org.name = .member ∧
        (org.teams = [] ∨
          filterGroups (teamsForOrg c.teamNameField userTeams org.name) org.teams ≠ []))
    ∧ ((¬ ∃ org ∈ c.orgs, membership org.name = .member ∧
          (org.teams = [] ∨
            filterGroups (teamsForOrg c.teamNameField userTeams org.name) org.teams ≠ [])) →
        groupsForOrgs c membership (.ok userTeams) userName =
          .error ("github: user \"" ++ userName ++ "\" not in required orgs or teams"))
    ∧ ((∀ org ∈ c.orgs, membership org.name ≠ .member) →
        groupsForOrgs c membership (.ok userTeams) userName =
          .error ("github: user \"" ++ userName ++ "\" not in required orgs or teams")) := by
  have hiff : (c.orgs.any (memberNoTeams membership)
        || !(c.orgs.flatMap (orgContribution c membership userTeams)).isEmpty) = true ↔
      ∃ org ∈ c.orgs, membership org.name = .member ∧
        (org.teams = [] ∨
          filterGroups (teamsForOrg c.teamNameField userTeams org.name) org.teams ≠ []) := by
    constructor
    · intro hc
      simp only [Bool.or_eq_true, Bool.not_eq_true', List.any_eq_true,
        List.isEmpty_eq_false] at hc
      rcases hc with ⟨org, horg, hmem⟩ | hne
      · simp only [memberNoTeams, Bool.and_eq_true, decide_eq_true_eq,
          List.isEmpty_iff] at hmem
        exact ⟨org, horg, hmem.1, Or.inl hmem.2⟩
      · rw [ne_eq, List.flatMap_eq_nil_iff] at hne
        push_neg at hne
        obtain ⟨org, horg, hcon⟩ := hne
        rw [orgContribution_ne_nil] at hcon
        obtain ⟨hm, hkept⟩ := hcon
        by_cases ht : org.teams.isEmpty
        · exact ⟨org, horg, hm, Or.inl (List.isEmpty_iff.mp ht)⟩
        · rw [if_neg ht] at hkept
          exact ⟨org, horg, hm, Or.inr hkept⟩
    · rintro ⟨org, horg, hm, hrest⟩
      simp only [Bool.or_eq_true, Bool.not_eq_true', List.any_eq_true,
        List.isEmpty_eq_false]
      rcases hrest with hnil | hfil
      · exact Or.inl ⟨org, horg, by simp [memberNoTeams, hm, hnil]⟩
      · right
        rw [ne_eq, List.flatMap_eq_nil_iff]
        push_neg
        refine ⟨org, horg, ?_⟩
        rw [orgContribution_ne_nil]
        refine ⟨hm, ?_⟩
        have ht : ¬ org.teams.isEmpty := by
          intro hte
          rw [List.isEmpty_iff] at hte
          rw [hte, filterGroups_nil] at hfil
          exact hfil rfl
        rwa [if_neg ht]
  rw [groupsForOrgs_spec c membership userTeams userName h]
  have herr : (¬ ∃ org ∈ c.orgs, membership org.name = .member ∧
      (org.teams = [] ∨
        filterGroups (teamsForOrg c.teamNameField userTeams org.name) org.teams ≠ [])) →
      (if c.orgs.any (memberNoTeams membership)
          || !(c.orgs.flatMap (orgContribution c membership userTeams)).isEmpty
       then Except.ok (c.orgs.flatMap (orgContribution c membership userTeams))
       else Except.error ("github: user \"" ++ userName ++ "\" not in required orgs or teams")) =
        Except.error ("github: user \"" ++ userName ++ "\" not in required orgs or teams") := by
    intro hnot
    rw [if_neg (fun hc => hnot (hiff.mp hc))]
  refine ⟨?_, herr, fun hnone => herr ?_⟩
  · by_cases hc : (c.orgs.any (memberNoTeams membership)
        || !(c.orgs.flatMap (orgContribution c membership userTeams)).isEmpty) = true
    · rw [if_pos hc]
      exact ⟨fun _ => hiff.mp hc, fun _ => ⟨_, rfl⟩⟩
    · rw [if_neg hc]
      constructor
      · rintro ⟨gs, hgs⟩; cases hgs
      · intro hex; exact absurd (hiff.mpr hex) hc
  · rintro ⟨org, horg, hm, _⟩
    exact hnone org horg hm

/-- Concrete runs of C6: a confirmed member of the only configured org whose
allow-list intersection with the user's teams is empty is denied with the
explicit not-authorized error, and so is a user who is a member of no
configured org. -/
theorem C6_orglist_authorization_witness :
    (groupsForOrgs ⟨"", "", [⟨"A", ["x"]⟩], "", false, false, "", false⟩
        (fun _ => .member) (.ok [⟨"z", "A", "zs"⟩]) "bob" =
      .error "github: user \"bob\" not in required orgs or teams") ∧
    (groupsForOrgs ⟨"", "", [⟨"A", ["x"]⟩, ⟨"B", []⟩], "", false, false, "", false⟩
        (fun _ => .softNonMember) (.ok [⟨"x", "A", "xs"⟩]) "bob" =
      .error "github: user \"bob\" not in required orgs or teams") := by
  constructor
  · exact (C6_orglist_authorization _ _ _ _
        (by intro org _ e; simp)).2.1 (by decide)
  · exact (C6_orglist_authorization _ _ _ _
        (by intro org _ e; simp)).2.2 (by intro org _; simp)

/-- C7: team-name projection yields per team `[name, slug]` in mode "both" and
a single string in modes "name"/"slug"; this count per surviving team is exact
in the modes that emit claims unfiltered, but — contrary to the original
claim — in org-list mode with a team allow-list the projected strings are
filtered individually, so a surviving team contributes exactly the subset of
its projections that appear in the allow-list: the org's result is the
filtered claim list, prefixed, with the not-authorized error when nothing
survives. -/
theorem C7_team_projection :
    (∀ t : Team, teamGroupClaims "both" t = [t.name, t.slug]) ∧
    (∀ t : Team, teamGroupClaims "slug" t = [t.slug]) ∧
    (∀ t : Team, teamGroupClaims "name" t = [t.name]) ∧
    (∀ (c : GithubConfig) (membership : String → MembershipStatus)
       (userTeams : List Team) (userName orgName : String) (allow : List String),
       c.orgs = [⟨orgName, allow⟩] → membership orgName = .member → allow ≠ [] →
       groupsForOrgs c membership (.ok userTeams) userName =
         (if (filterGroups (teamsForOrg c.teamNameField userTeams orgName) allow).isEmpty
          then .error ("github: user \"" ++ userName ++ "\" not in required orgs or teams")
          else .ok ((filterGroups (teamsForOrg c.teamNameField userTeams orgName) allow).map
              (formatTeamName orgName)))) := by
  refine ⟨fun t => rfl, fun t => rfl, fun t => rfl, ?_⟩
  intro c membership userTeams userName orgName allow horgs hm hallow
  rw [groupsForOrgs_spec c membership userTeams userName
    (by rw [horgs]; intro org ho e; simp at ho; rw [ho]; simp [hm])]
  rw [horgs]
  have hne : (⟨orgName, allow⟩ : Org).teams.isEmpty = false := by
    simpa [List.isEmpty_eq_false] using hallow
  simp only [List.any_cons, List.any_nil, List.flatMap_cons, List.flatMap_nil,
    memberNoTeams, orgContribution, hm, hne, decide_eq_true_eq, Bool.and_false,
    Bool.false_or, Bool.or_false, if_true, if_false, List.append_nil]
  by_cases hk : (filterGroups (teamsForOrg c.teamNameField userTeams orgName) allow).isEmpty
  · simp [hk, List.map_eq_nil_iff, List.isEmpty_iff.mp hk]
  · have : filterGroups (teamsForOrg c.teamNameField userTeams orgName) allow ≠ [] := by
      simpa [List.isEmpty_eq_false] using hk
    simp [hk, this, List.map_eq_nil_iff]

/-- Concrete run of C7: a single org `O` with allow-list `["alpha"]` in mode
"name"; the user's team `alpha` survives and contributes exactly one string. -/
theorem C7_team_projection_witness :
    groupsForOrgs ⟨"", "", [⟨"O", ["alpha"]⟩], "name", false, false, "", false⟩
      (fun _ => .member) (.ok [⟨"alpha", "O", "beta"⟩]) "u" = .ok ["O:alpha"] := by
  rw [C7_team_projection.2.2.2 _ _ _ _ _ _ rfl rfl (by decide)]
  decide

/-- C7 counterexample: in org-list mode with allow-list `["x"]` and projection
mode "both", the user's team (name `x`, slug `y`) survives the filter through
its name, yet resolution yields the single string `"A:x"` instead of the two
strings `"A:x"` and `"A:y"` the original claim predicts: the slug projection
was filtered out individually. -/
theorem C7_team_projection_counterexample :
    groupsForOrgs ⟨"", "", [⟨"A", ["x"]⟩], "both", false, false, "", false⟩
      (fun _ => .member) (.ok [⟨"x", "A", "y"⟩]) "u" = .ok ["A:x"] ∧
    (["A:x"] : List String).length ≠ 2 := by
  constructor
  · decide
  · decide

/-- The label loop accepts exactly when the label lists have equal length and
each configured label equals the candidate label or is the wildcard. -/
lemma labelsMatch_iff : ∀ vs ds : List String,
    labelsMatch vs ds = true ↔
      (vs.length = ds.length ∧ ∀ p ∈ vs.zip ds, p.2 = p.1 ∨ p.1 = "*") := by
  intro vs
  induction vs with
  | nil => intro ds; cases ds <;> simp [labelsMatch]
  | cons v vs ih =>
    intro ds
    cases ds with
    | nil => simp [labelsMatch]
    | cons d ds =>
      simp only [labelsMatch, Bool.and_eq_true, Bool.or_eq_true, decide_eq_true_eq,
        ih ds, List.zip_cons_cons, List.mem_cons, List.length_cons, Nat.succ_inj]
      constructor
      · rintro ⟨hv, hlen, hall⟩
        refine ⟨hlen, ?_⟩
        rintro p (rfl | hp)
        · exact hv
        · exact hall p hp
      · rintro ⟨hlen, hall⟩
        exact ⟨hall (v, d) (Or.inl rfl), hlen, fun p hp => hall p (Or.inr hp)⟩

/-- C8: the preferred-email-domain comparator accepts a candidate domain
exactly when it equals the configured glob literally, or the two strings split
on `.` into equally many labels and each configured label equals the
corresponding candidate label or is the wildcard `*`; in particular
`*.example.com` matches `mail.example.com` and matches neither `example.com`
nor `mail.example.org`. -/
theorem C8_preferred_domain :
    (∀ glob domain, isPreferredEmailDomain glob domain = true ↔
      (domain = glob ∨
        ((splitDots glob).length = (splitDots domain).length ∧
         ∀ p ∈ (splitDots glob).zip (splitDots domain), p.2 = p.1 ∨ p.1 = "*"))) ∧
    isPreferredEmailDomain "*.example.com" "mail.example.com" = true ∧
    isPreferredEmailDomain "*.example.com" "example.com" = false ∧
    isPreferredEmailDomain "*.example.com" "mail.example.org" = false := by
  refine ⟨?_, by decide, by decide, by decide⟩
  intro glob domain
  rw [isPreferredEmailDomain]
  by_cases hd : domain = glob
  · simp [hd]
  · rw [if_neg hd]
    by_cases hl : (splitDots glob).length = (splitDots domain).length
    · rw [if_neg (by simpa using hl)]
      rw [labelsMatch_iff]
      simp [hd, hl]
    · rw [if_pos (by simpa using hl)]
      simp [hd, hl]

/-- Concrete run of C8: the wildcard glob accepts a same-shape domain through
the label-wise branch of the comparator. -/
theorem C8_preferred_domain_witness :
    isPreferredEmailDomain "*.corp.net" "mx.corp.net" = true :=
  (C8_preferred_domain.1 "*.corp.net" "mx.corp.net").mpr (Or.inr (by decide))

/-- C5: the pagination step returns `""` when no "last" relation is present;
returns `""` when the "last" URL equals the just-fetched URL even if a "next"
relation is present; and otherwise returns the "next" URL when present and
`""` when absent. -/
theorem C5_pagination :
    (∀ (url : String) (next : Option String), getPagination url none next = "") ∧
    (∀ (url : String) (next : Option String), getPagination url (some url) next = "") ∧
    (∀ url l nextURL : String, l ≠ url →
      getPagination url (some l) (some nextURL) = nextURL) ∧
    (∀ url l : String, l ≠ url → getPagination url (some l) none = "") := by
  refine ⟨fun url next => rfl, fun url next => by simp [getPagination], ?_, ?_⟩
  · intro url l nextURL hne
    simp only [getPagination, if_neg (Ne.symm hne)]
  · intro url l hne
    simp only [getPagination, if_neg (Ne.symm hne)]

/-- Concrete run of C5: a "last" URL differing from the fetched URL lets the
"next" URL through. -/
theorem C5_pagination_witness :
    getPagination "page1" (some "page9") (some "page2") = "page2" :=
  C5_pagination.2.2.1 "page1" "page9" "page2" (by decide)

/-- Unfolding equation for the single-page fetch (stated separately because
the bare name `get` is ambiguous inside tactic lemma lists). -/
lemma get_def (apiURL : String) (resp : HTTPResponse) :
    get apiURL resp =
      (if resp.statusCode ≠ 200 then .error (resp.status ++ ": " ++ resp.body)
       else if resp.decodeOk = false then .error "failed to decode response"
       else .ok (getPagination apiURL resp.linkLast resp.linkNext)) := rfl

/-- C4: the single-page fetch errors exactly when the response status is not
200 or the 200 body fails to decode — not "non-2xx" as originally claimed; the
non-200 error carries the status line and the raw body, and every 200 response
whose body decodes is accepted with its pagination URL. -/
theorem C4_get_status (url : String) (resp : HTTPResponse) :
    (resp.statusCode ≠ 200 → get url resp = .error (resp.status ++ ": " ++ resp.body)) ∧
    (resp.statusCode = 200 → resp.decodeOk = true →
      get url resp = .ok (getPagination url resp.linkLast resp.linkNext)) ∧
    ((∃ e, get url resp = .error e) ↔ resp.statusCode ≠ 200 ∨ resp.decodeOk = false) := by
  by_cases hs : resp.statusCode = 200
  · by_cases hdec : resp.decodeOk = true
    · refine ⟨fun hne => absurd hs hne, fun _ _ => by simp [get_def, hs, hdec], ?_⟩
      constructor
      · rintro ⟨e, he⟩
        simp [get_def, hs, hdec] at he
      · rintro (hne | hfalse)
        · exact absurd hs hne
        · rw [hdec] at hfalse; cases hfalse
    · have hdec' : resp.decodeOk = false := by
        cases h : resp.decodeOk
        · rfl
        · exact absurd h hdec
      refine ⟨fun hne => absurd hs hne, fun _ ht => absurd ht hdec, ?_⟩
      constructor
      · intro _; exact Or.inr hdec'
      · intro _; exact ⟨"failed to decode response", by simp [get_def, hs, hdec']⟩
  · refine ⟨fun _ => by simp [get_def, hs], fun he => absurd he hs, ?_⟩
    constructor
    · intro _; exact Or.inl hs
    · intro _; exact ⟨resp.status ++ ": " ++ resp.body, by simp [get_def, hs]⟩

/-- Concrete run of C4: a 404 response is rejected with the status line and
raw body embedded in the error. -/
theorem C4_get_status_witness :
    get "u" ⟨404, "404 Not Found", "missing", true, none, none⟩ =
      .error "404 Not Found: missing" :=
  (C4_get_status "u" ⟨404, "404 Not Found", "missing", true, none, none⟩).1 (by decide)

/-- C4 counterexample: a 204 response is inside the 2xx range, which the
original claim says must be accepted, yet the fetch rejects it (the code
compares against 200 exactly). -/
theorem C4_get_status_counterexample :
    get "u" ⟨204, "204 No Content", "", true, none, none⟩ = .error "204 No Content: " ∧
    200 ≤ 204 ∧ 204 < 300 := by
  refine ⟨by decide, by decide, by decide⟩

/-- C2: with non-disclosing-email synthesis configured, the profile operation
returns exactly `{numericID}+{login}@users.noreply.github.com` with no
private-email lookup whenever the host is the public endpoint **or the
configured enterprise host is `"github.com"`** (the code special-cases that
host name, contrary to the original claim); for every other configured host
the shortcut is never applied: either the private-emails crawl decides the
email (lookup performed), or the profile email is kept unchanged. -/
theorem C2_noreply_shortcut (c : GithubConfig) (u0 : User) (pages : List (List UserEmail))
    (hn : c.noreplyPrivateEmail = true) :
    ((c.hostName = "" ∨ c.hostName = "github.com") →
      user c u0 pages = .ok ({ u0 with email := noreplyEmail u0 }, false)) ∧
    (c.hostName ≠ "" → c.hostName ≠ "github.com" →
      ((u0.email = "" ∨ c.preferredEmailDomain ≠ "" →
          user c u0 pages =
            (userEmail c pages).map (fun e => ({ u0 with email := e }, true))) ∧
       (u0.email ≠ "" → c.preferredEmailDomain = "" →
          user c u0 pages = .ok (u0, false)))) := by
  constructor
  · intro hh
    rcases hh with hh | hh <;> simp [user, hn, hh]
  · intro h1 h2
    constructor
    · intro hcrawl
      rcases hcrawl with hc | hc
      · cases hue : userEmail c pages <;>
          simp [user, hn, h1, h2, hc, hue, Except.map]
      · cases hue : userEmail c pages <;>
          simp [user, hn, h1, h2, hc, hue, Except.map]
    · intro he hp
      simp [user, hn, h1, h2, he, hp]

/-- Concrete run of C2: on the public host the synthesized address replaces
even a non-empty public email, with no private-email lookup. -/
theorem C2_noreply_shortcut_witness :
    user ⟨"", "", [], "", false, false, "", true⟩ ⟨"Jane", "jane", 7, "j@x.com"⟩ [] =
      .ok (⟨"Jane", "jane", 7, "7+jane@users.noreply.github.com"⟩, false) := by
  have h := (C2_noreply_shortcut ⟨"", "", [], "", false, false, "", true⟩
    ⟨"Jane", "jane", 7, "j@x.com"⟩ [] rfl).1 (Or.inl rfl)
  rw [h]
  decide

/-- C2 counterexample: `"github.com"` is a configured (enterprise-style) host
name, for which the original claim says the shortcut is never applied — yet
the code synthesizes the non-disclosing address without any lookup. -/
theorem C2_noreply_shortcut_counterexample :
    user ⟨"github.com", "", [], "", false, false, "", true⟩ ⟨"", "l", 5, ""⟩ [] =
      .ok (⟨"", "l", 5, "5+l@users.noreply.github.com"⟩, false) ∧
    ("github.com" : String) ≠ "" := by
  refine ⟨by decide, by decide⟩

/-- C9: refresh fails whenever the prior identity carries no opaque persisted
state; every successful refresh keeps the opaque state, the stable user id and
the email-verified flag unchanged, overwrites username, preferred-username and
email from the re-fetched profile, and overwrites the groups exactly when
group resolution is required. -/
theorem C9_refresh_frame (c : GithubConfig) (s : Scopes) (identity : Identity)
    (unmarshalOk : Bool) (userResult : Except String User)
    (groupsResult : Except String (List String)) :
    (identity.connectorData = "" →
      Refresh c s identity unmarshalOk userResult groupsResult =
        .error "no upstream access token found") ∧
    (∀ ident', Refresh c s identity unmarshalOk userResult groupsResult = .ok ident' →
      ident'.connectorData = identity.connectorData ∧
      ident'.userID = identity.userID ∧
      ident'.emailVerified = identity.emailVerified ∧
      (groupsRequired c s.groups = false → ident'.groups = identity.groups) ∧
      (∃ u, userResult = .ok u ∧
        ident'.username = (if u.name = "" then u.login else u.name) ∧
        ident'.preferredUsername = u.login ∧ ident'.email = u.email) ∧
      (groupsRequired c s.groups = true →
        ∃ gs, groupsResult = .ok gs ∧ ident'.groups = gs)) := by
  constructor
  · intro h
    simp [Refresh, h]
  · intro ident' hok
    by_cases hlen : identity.connectorData.length = 0
    · simp [Refresh, hlen] at hok
    · cases hum : unmarshalOk with
      | false => rw [hum] at hok; simp [Refresh, hlen] at hok
      | true =>
        rw [hum] at hok
        cases hur : userResult with
        | error e => rw [hur] at hok; simp [Refresh, hlen] at hok
        | ok u =>
          rw [hur] at hok
          cases hgr : groupsRequired c s.groups with
          | false =>
            simp [Refresh, hlen, hgr] at hok
            subst hok
            simp [hgr]
          | true =>
            cases hgs : groupsResult with
            | error e => rw [hgs] at hok; simp [Refresh, hlen, hgr] at hok
            | ok gs =>
              rw [hgs] at hok
              simp [Refresh, hlen, hgr] at hok
              subst hok
              simp [hgr]

/-- Concrete run of C9: a successful refresh (opaque state present, no group
resolution required) overwrites the profile fields and keeps the opaque state
intact. -/
theorem C9_refresh_frame_witness :
    Refresh ⟨"", "", [], "", false, false, "", false⟩ ⟨false, false⟩
        ⟨"7", "a", "b", "c", true, ["old"], "tok"⟩ true
        (.ok ⟨"Jane", "jane", 7, "jx"⟩) (.ok []) =
      .ok ⟨"7", "Jane", "jane", "jx", true, ["old"], "tok"⟩ ∧
    (⟨"7", "Jane", "jane", "jx", true, ["old"], "tok"⟩ : Identity).connectorData = "tok" := by
  have h := (C9_refresh_frame ⟨"", "", [], "", false, false, "", false⟩ ⟨false, false⟩
    ⟨"7", "a", "b", "c", true, ["old"], "tok"⟩ true
    (.ok ⟨"Jane", "jane", 7, "jx"⟩) (.ok [])).2
    ⟨"7", "Jane", "jane", "jx", true, ["old"], "tok"⟩ (by decide)
  exact ⟨by decide, h.1⟩

/-- C10: every identity returned by a successful callback handling has its
email-verified flag set to true, for every configuration, scopes and upstream
outcome. -/
theorem C10_email_verified (c : GithubConfig) (s : Scopes) (errType errDesc : String)
    (exchangeOk : Bool) (userResult : Except String User)
    (groupsResult : Except String (List String)) (marshalOk : Bool)
    (connData : String) (ident : Identity) :
    HandleCallback c s errType errDesc exchangeOk userResult groupsResult
      marshalOk connData = .ok ident → ident.emailVerified = true := by
  intro hok
  by_cases h1 : errType = ""
  · cases h2 : exchangeOk with
    | false => rw [h2] at hok; simp [HandleCallback, h1] at hok
    | true =>
      rw [h2] at hok
      cases h3 : userResult with
      | error e => rw [h3] at hok; simp [HandleCallback, h1] at hok
      | ok u =>
        rw [h3] at hok
        cases h4 : groupsRequired c s.groups with
        | false =>
          cases h5 : s.offlineAccess with
          | false =>
            simp [HandleCallback, h1, h4, h5] at hok
            cases hok
            rfl
          | true =>
            cases h6 : marshalOk with
            | false => rw [h6] at hok; simp [HandleCallback, h1, h4, h5] at hok
            | true =>
              rw [h6] at hok
              simp [HandleCallback, h1, h4, h5] at hok
              cases hok
              rfl
        | true =>
          cases h7 : groupsResult with
          | error e => rw [h7] at hok; simp [HandleCallback, h1, h4] at hok
          | ok gs =>
            rw [h7] at hok
            cases h5 : s.offlineAccess with
            | false =>
              simp [HandleCallback, h1, h4, h5] at hok
              cases hok
              rfl
            | true =>
              cases h6 : marshalOk with
              | false => rw [h6] at hok; simp [HandleCallback, h1, h4, h5] at hok
              | true =>
                rw [h6] at hok
                simp [HandleCallback, h1, h4, h5] at hok
                cases hok
                rfl
  · simp [HandleCallback, h1] at hok

/-- Concrete run of C10: a plain successful callback yields an identity whose
email-verified flag is true. -/
theorem C10_email_verified_witness :
    HandleCallback ⟨"", "", [], "", false, false, "", false⟩ ⟨false, false⟩ "" ""
        true (.ok ⟨"Jane", "jane", 7, "jx"⟩) (.ok []) true "" =
      .ok ⟨"7", "Jane", "jane", "jx", true, [], ""⟩ ∧
    (⟨"7", "Jane", "jane", "jx", true, [], ""⟩ : Identity).emailVerified = true := by
  refine ⟨by decide, ?_⟩
  exact C10_email_verified ⟨"", "", [], "", false, false, "", false⟩ ⟨false, false⟩ "" ""
    true (.ok ⟨"Jane", "jane", 7, "jx"⟩) (.ok []) true ""
    ⟨"7", "Jane", "jane", "jx", true, [], ""⟩ (by decide)

/-- The enterprise adjustment does not change the address itself. -/
lemma adjustVerified_email (c : GithubConfig) (e : UserEmail) :
    (adjustVerified c e).email = e.email := by
  rw [adjustVerified]; split <;> rfl

/-- Lemma: `getLastD` over an append threads the default through the first part. -/
lemma getLastD_append {α : Type} (x y : List α) (d : α) :
    (x ++ y).getLastD d = y.getLastD (x.getLastD d) := by
  induction x generalizing d with
  | nil => rfl
  | cons a x ih =>
    rw [List.cons_append, List.getLastD_cons, ih a, List.getLastD_cons]

/-- Lemma: `vpList` distributes over append. -/
lemma vpList_append (c : GithubConfig) (a b : List UserEmail) :
    vpList c (a ++ b) = vpList c a ++ vpList c b := by
  simp [vpList]

/-- Lemma: `prefList` distributes over append. -/
lemma prefList_append (c : GithubConfig) (a b : List UserEmail) :
    prefList c (a ++ b) = prefList c a ++ prefList c b := by
  rw [prefList, prefList, prefList]
  split
  · simp
  · simp

/-- Invariant of the per-page email loop: when every email on the page is
well-formed (whenever a preferred-domain filter forces the domain check), the
loop succeeds, the `primaryEmail` accumulator ends at the **last**
verified-primary email of the page (default: its incoming value), and the
preferred matches of the page are appended in order. -/
lemma processEmails_spec (c : GithubConfig) :
    ∀ (page : List UserEmail) (p : UserEmail) (pref : List UserEmail),
      (c.preferredEmailDomain ≠ "" → ∀ e ∈ page, (cutDomain e.email).isSome) →
      processEmails c page p pref =
        .ok ((vpList c page).getLastD p, pref ++ prefList c page) := by
  intro page
  induction page with
  | nil =>
    intro p pref _
    rw [processEmails]
    rw [show vpList c [] = [] from rfl]
    rw [prefList]
    split <;> simp
  | cons e0 rest ih =>
    intro p pref hwf
    rw [processEmails]
    by_cases hd : c.preferredEmailDomain = ""
    · rw [if_neg (by simpa using hd)]
      rw [ih _ _ (fun hne => absurd hd (by simpa using hne))]
      by_cases hvp : ((adjustVerified c e0).verified && (adjustVerified c e0).primary) = true
      · rw [if_pos hvp]
        rw [show vpList c (e0 :: rest) = adjustVerified c e0 :: vpList c rest by
          simp [vpList, hvp]]
        rw [List.getLastD_cons]
        rw [prefList, prefList, if_pos hd, if_pos hd]
      · rw [if_neg hvp]
        rw [show vpList c (e0 :: rest) = vpList c rest by simp [vpList, hvp]]
        rw [prefList, prefList, if_pos hd, if_pos hd]
    · rw [if_pos (by simpa using hd)]
      have hsome : (cutDomain (adjustVerified c e0).email).isSome := by
        rw [adjustVerified_email]
        exact hwf hd e0 (List.mem_cons_self _ _)
      obtain ⟨dp, hdp⟩ := Option.isSome_iff_exists.mp hsome
      rw [hdp]
      dsimp only
      have hwfrest : c.preferredEmailDomain ≠ "" → ∀ e ∈ rest, (cutDomain e.email).isSome :=
        fun h e he => hwf h e (List.mem_cons_of_mem _ he)
      rw [ih _ _ hwfrest]
      have hpref : prefList c (e0 :: rest) =
          (if (adjustVerified c e0).verified &&
              isPreferredEmailDomain c.preferredEmailDomain dp
           then [adjustVerified c e0] else []) ++ prefList c rest := by
        rw [prefList, prefList, if_neg hd, if_neg hd]
        have : ((cutDomain (adjustVerified c e0).email).getD "") = dp := by rw [hdp]; rfl
        rw [List.map_cons]
        by_cases hc2 : ((adjustVerified c e0).verified &&
            isPreferredEmailDomain c.preferredEmailDomain
              ((cutDomain (adjustVerified c e0).email).getD "")) = true
        · rw [List.filter_cons_of_pos (by simpa [adjustVerified_email] using hc2)]
          rw [if_pos (by rw [← this]; simpa [adjustVerified_email] using hc2)]
          rfl
        · rw [List.filter_cons_of_neg (by simpa [adjustVerified_email] using hc2)]
          rw [if_neg (by rw [← this]; simpa [adjustVerified_email] using hc2)]
          rfl
      rw [hpref]
      by_cases hvp : ((adjustVerified c e0).verified && (adjustVerified c e0).primary) = true
      · rw [if_pos hvp]
        rw [show vpList c (e0 :: rest) = adjustVerified c e0 :: vpList c rest by
          simp [vpList, hvp]]
        rw [List.getLastD_cons]
        by_cases hc2 : ((adjustVerified c e0).verified &&
            isPreferredEmailDomain c.preferredEmailDomain dp) = true
        · simp [hc2]
        · simp [hc2]
      · rw [if_neg hvp]
        rw [show vpList c (e0 :: rest) = vpList c rest by simp [vpList, hvp]]
        by_cases hc2 : ((adjustVerified c e0).verified &&
            isPreferredEmailDomain c.preferredEmailDomain dp) = true
        · simp [hc2]
        · simp [hc2]

/-- Invariant of the page loop of the crawl, lifted from
`processEmails_spec`: the accumulators over all pages behave as over the
flattened email sequence. -/
lemma userEmailPages_spec (c : GithubConfig) :
    ∀ (pages : List (List UserEmail)) (p : UserEmail) (pref : List UserEmail),
      (c.preferredEmailDomain ≠ "" → ∀ page ∈ pages, ∀ e ∈ page, (cutDomain e.email).isSome) →
      userEmailPages c pages p pref =
        .ok ((vpList c pages.flatten).getLastD p, pref ++ prefList c pages.flatten) := by
  intro pages
  induction pages with
  | nil =>
    intro p pref _
    rw [userEmailPages, prefList]
    split <;> simp [vpList]
  | cons page rest ih =>
    intro p pref hwf
    rw [userEmailPages]
    rw [processEmails_spec c page p pref
      (fun h e he => hwf h page (List.mem_cons_self _ _) e he)]
    dsimp only
    rw [ih _ _ (fun h pg hpg e he => hwf h pg (List.mem_cons_of_mem _ hpg) e he)]
    rw [List.flatten_cons, vpList_append, prefList_append, getLastD_append,
      List.append_assoc]

/-- C3: over well-formed pages, the private-emails crawl returns, in priority
order, the first verified email across pages whose domain matches the
configured preferred-domain filter; else the **last** (not, as originally
claimed, the first) email encountered that is both verified and marked
primary, provided its address is non-empty; else the explicit
"no usable email" error. -/
theorem C3_email_priority (c : GithubConfig) (pages : List (List UserEmail))
    (hwf : c.preferredEmailDomain ≠ "" →
      ∀ page ∈ pages, ∀ e ∈ page, (cutDomain e.email).isSome) :
    userEmail c pages =
      (match prefList c pages.flatten with
       | pe :: _ => .ok pe.email
       | [] =>
         if ((vpList c pages.flatten).getLastD emptyUserEmail).email ≠ "" then
           .ok ((vpList c pages.flatten).getLastD emptyUserEmail).email
         else
           .error "github: user has no verified, primary email or preferred-domain email") := by
  rw [userEmail, userEmailPages_spec c pages emptyUserEmail [] hwf]
  dsimp only
  rw [List.nil_append]

/-- Concrete run of C3: a single verified-primary email is returned. -/
theorem C3_email_priority_witness :
    userEmail ⟨"", "", [], "", false, false, "", false⟩
      [[⟨"p@x.com", true, true, ""⟩]] = .ok "p@x.com" := by
  rw [C3_email_priority _ _ (fun h => absurd rfl h)]
  decide

/-- C3 counterexample: with two verified-primary emails on one page and no
preferred-domain filter, the crawl returns the **second** one, while the first
verified-primary email of the sequence is the first entry — the original
claim's "first ... verified and marked primary" predicts `"a@x.com"` but the
code returns `"b@x.com"`. -/
theorem C3_email_priority_counterexample :
    userEmail ⟨"", "", [], "", false, false, "", false⟩
      [[⟨"a@x.com", true, true, ""⟩, ⟨"b@x.com", true, true, ""⟩]] = .ok "b@x.com" ∧
    (vpList ⟨"", "", [], "", false, false, "", false⟩
      [⟨"a@x.com", true, true, ""⟩, ⟨"b@x.com", true, true, ""⟩]).head? =
      some ⟨"a@x.com", true, true, ""⟩ ∧
    ("b@x.com" : String) ≠ "a@x.com" := by
  refine ⟨by decide, by decide, by decide⟩
